import Mathlib

/-!
Verification of the faculty-expert aggregation pipeline
(`FacultyAgent.get_experts` over the `Faculty` data type).

The pipeline is embedded shallowly: the three HTTP endpoints are modelled
as components of an `Api` value (the authors endpoint as a function of the
requested identifier list, so that the request issued can be observed), and
the single storage side effect is recorded in the returned `RunResult`.
Optional JSON fields that the code reads with `dict.get` are modelled as
`Option`; a `KeyError` (the `author_scores[...]` subscript) makes the run
return `none`.
-/

namespace Profinesser

/-- One institution record of the `/institutions` response
(`id` and `display_name` are accessed by subscript, hence required). -/
structure Institution where
  id : String
  display_name : String
  deriving DecidableEq, Repr

/-- The `author` object inside an authorship: `id` is read with `.get('id')`
(optional), `display_name` by subscript. -/
structure AuthorRef where
  id : Option String
  display_name : String
  deriving DecidableEq, Repr

/-- One entry of an authorship's `institutions` list; its `id` is read with
`.get('id')`. -/
structure InstRef where
  id : Option String
  deriving DecidableEq, Repr

/-- One authorship entry of a work: `author` is read with
`.get('author', \x7b\x7d)` and `institutions` with `.get('institutions', [])`. -/
structure Authorship where
  author : Option AuthorRef
  institutions : List InstRef
  deriving DecidableEq, Repr

/-- One work record: `title` is read with `.get('title')`,
`authorships` with `.get('authorships', [])`. -/
structure Work where
  title : Option String
  authorships : List Authorship
  deriving DecidableEq, Repr

/-- The `field` object of a topic; `display_name` is read with `.get`. -/
structure TopicField where
  display_name : Option String
  deriving DecidableEq, Repr

/-- One topic of an author profile: both `display_name` and `field` are read
with `.get`. -/
structure Topic where
  display_name : Option String
  field : Option TopicField
  deriving DecidableEq, Repr

/-- The `summary_stats` object of an author profile; `h_index` is read with
`.get('h_index', 0)`. -/
structure SummaryStats where
  h_index : Option Nat
  deriving DecidableEq, Repr

/-- One author profile of the `/authors` response. `id` and `display_name`
are accessed by subscript; `summary_stats` may be null; `topics` defaults to
`[]`. `works_count`, `cited_by_count` and `two_yr_mean_citedness` are present
in the upstream payload but never read by the pipeline. -/
structure AuthorProfile where
  id : String
  display_name : String
  summary_stats : Option SummaryStats
  topics : List Topic
  works_count : Nat := 0
  cited_by_count : Nat := 0
  two_yr_mean_citedness : Rat := 0
  deriving DecidableEq, Repr

/-- The `Faculty` dataclass of `DataTypes.py`. `specialty` and `top_paper`
are `Option` because the constructing code can pass `None` for them
(`topics[0].get('display_name')`, `work.get('title')`). The last four
fields carry the dataclass defaults. `impact_score` is a float in the
source but only ever holds its exact default `0.0`, so it is modelled as
`Rat`. -/
structure Faculty where
  name : String
  id : String
  h_index : Nat
  specialty : Option String
  top_paper : Option String
  last_known_institution : String
  orcid : Option String := none
  works_count : Nat := 0
  total_citations : Nat := 0
  impact_score : Rat := 0
  deriving DecidableEq, Repr

/-- The external API, as seen by one `get_experts` call: the institution
search response, the works search response, and the authors endpoint as a
function of the `id-or-id` filter list it is called with. -/
structure Api where
  inst_results : List Institution
  works_results : List Work
  authors_fetch : List String → List AuthorProfile

/-- The observable outcome of one `get_experts` call: the returned list,
the argument of the (at most one) `storage.save_faculty` call (`none` when
storage was never invoked), and the identifier list sent to the authors
endpoint (`none` when that request was never issued). -/
structure RunResult where
  output : List Faculty
  saved : Option (List Faculty)
  authors_request : Option (List String)
  deriving DecidableEq, Repr

/-- The per-author aggregation value: `\x7b"name": ..., "top_paper": ...,
"count": ...\x7d` in `author_scores`. -/
structure AScore where
  name : String
  top_paper : Option String
  count : Nat
  deriving DecidableEq, Repr

/-- Ordered association-list lookup; `author_scores` is a Python dict, which
preserves insertion order, so it is modelled as an ordered association list. -/
def lookupA (k : String) : List (String × AScore) → Option AScore
  | [] => none
  | (k', v) :: m => if k' = k then some v else lookupA k m

/-- Python `author_scores[a_id]["count"] += 1`: increment the count of key `k`,
leaving keys, order, and the other fields untouched. -/
def bump (k : String) : List (String × AScore) → List (String × AScore)
  | [] => []
  | (k', v) :: m =>
      if k' = k then (k', { v with count := v.count + 1 }) :: m
      else (k', v) :: bump k m

/-- Python `any(inst.get('id') == school_id for inst in authorship.get('institutions', []))`. -/
def atSchool (school_id : String) (a : Authorship) : Bool :=
  a.institutions.any (fun i => i.id = some school_id)

/-- The body of the aggregation loop for one authorship, paired with the
title of the work it came from. Mirrors lines 37-49 of `FacultyAgent.py`:
the institution guard, then `a_id = authorship.get('author', \x7b\x7d).get('id')`;
`if a_id and a_id not in author_scores` inserts a fresh entry (count 1,
`top_paper` = the current work's title), `elif a_id` increments the count.
A falsy (empty) `a_id` takes neither branch. -/
def step (school_id : String) (m : List (String × AScore))
    (p : Option String × Authorship) : List (String × AScore) :=
  if atSchool school_id p.2 then
    match p.2.author with
    | none => m
    | some au =>
      match au.id with
      | none => m
      | some a_id =>
        if a_id = "" then m
        else
          match lookupA a_id m with
          | some _ => bump a_id m
          | none => m ++ [(a_id, { name := au.display_name, top_paper := p.1, count := 1 })]
  else m

/-- Stage 3 (lines 36-49): the nested loop over works and their authorships,
threading `author_scores` from the empty dict. -/
def aggregate (school_id : String) (works : List Work) : List (String × AScore) :=
  works.foldl
    (fun m w => w.authorships.foldl (fun m' a => step school_id m' (w.title, a)) m) []

/-- The fixed allow-list `technical_fields` (line 60). -/
def technical_fields : List String := ["Computer Science", "Mathematics", "Engineering"]

/-- Python `any(t.get('field', \x7b\x7d).get('display_name') in technical_fields
for t in topics[:3])` (line 63). -/
def isTechnical (topics : List Topic) : Bool :=
  (topics.take 3).any (fun t =>
    match t.field with
    | none => false
    | some fl =>
      match fl.display_name with
      | none => false
      | some n => n ∈ technical_fields)

/-- Construction of one `Faculty` record (lines 66-74). The
`author_scores[author['id']]` subscript raises `KeyError` when the id is
absent, modelled as `none`. `h_index` is
`(author.get('summary_stats') or \x7b\x7d).get('h_index', 0)`; `specialty` is
`topics[0].get('display_name') if topics else "Researcher"`. -/
def mkFaculty (school_display : String) (scores : List (String × AScore))
    (a : AuthorProfile) : Option Faculty :=
  match lookupA a.id scores with
  | none => none
  | some sc => some
      { name := a.display_name
        id := a.id
        h_index := match a.summary_stats with
          | none => 0
          | some s => s.h_index.getD 0
        specialty := match a.topics with
          | [] => some "Researcher"
          | t :: _ => t.display_name
        top_paper := sc.top_paper
        last_known_institution := school_display }

/-- The enrichment loop (lines 59-74): keep each profile passing the
technical-field filter, in response order; a `KeyError` while building any
kept record aborts the whole call. -/
def buildVerified (school_display : String) (scores : List (String × AScore)) :
    List AuthorProfile → Option (List Faculty)
  | [] => some []
  | a :: rest =>
    if isTechnical a.topics then
      match mkFaculty school_display scores a with
      | none => none
      | some f => (buildVerified school_display scores rest).map (f :: ·)
    else buildVerified school_display scores rest

/-- Python `sorted(verified_list, key=lambda x: x.h_index, reverse=True)`: Python's
stable descending sort, realised as insertion sort that places `x` before
the first element whose h-index is `≤` its own (so equal keys keep their
original relative order). -/
def insertDesc (x : Faculty) : List Faculty → List Faculty
  | [] => [x]
  | y :: ys => if y.h_index ≤ x.h_index then x :: y :: ys else y :: insertDesc x ys

/-- The full stable descending sort by h-index. -/
def sortDesc : List Faculty → List Faculty
  | [] => []
  | x :: xs => insertDesc x (sortDesc xs)

/-- The `author_scores` dict computed by a run of `get_experts` (empty when
the institution search matched nothing). -/
def scoresOf (api : Api) : List (String × AScore) :=
  match api.inst_results with
  | [] => []
  | inst :: _ => aggregate inst.id api.works_results

/-- Python `top_ids = list(author_scores.keys())[:20]` (line 53). -/
def topIdsOf (api : Api) : List String :=
  ((scoresOf api).map Prod.fst).take 20

/-- The `verified_list` of a run that reaches enrichment. -/
def keptOf (api : Api) : Option (List Faculty) :=
  match api.inst_results with
  | [] => none
  | inst :: _ =>
      buildVerified inst.display_name (scoresOf api) (api.authors_fetch (topIdsOf api))

/-- The top-level `FacultyAgent.get_experts`: resolve the institution (empty results
return `[]` at once, line 20), aggregate authors, exit early when `top_ids`
is empty (line 54), fetch profiles for `top_ids`, filter and build records,
sort descending by h-index, truncate to `limit`, save, return. -/
def get_experts (api : Api) (limit : Nat) : Option RunResult :=
  match api.inst_results with
  | [] => some { output := [], saved := none, authors_request := none }
  | _ :: _ =>
    if topIdsOf api = [] then
      some { output := [], saved := none, authors_request := none }
    else
      match keptOf api with
      | none => none
      | some verified =>
        let results := (sortDesc verified).take limit
        some { output := results, saved := some results, authors_request := some (topIdsOf api) }


/-- Bool guard: the pair's authorship is credited at the school and carries
exactly the author id a_id (the conjunction the aggregation loop tests
before touching the entry of a_id). -/
def qualifies (school_id a_id : String) (p : Option String × Authorship) : Bool :=
  atSchool school_id p.2 && decide (p.2.author.bind AuthorRef.id = some a_id)

/-- Display name of the pair's author (irrelevant default when absent). -/
def nameOf (p : Option String × Authorship) : String :=
  match p.2.author with
  | none => ""
  | some au => au.display_name

/-- Number of qualifying pairs for a given author id. -/
def countQ (school_id a_id : String) (ps : List (Option String × Authorship)) : Nat :=
  ps.countP (qualifies school_id a_id)

/-- First qualifying pair for a given author id, in traversal order. -/
def firstQ (school_id a_id : String) (ps : List (Option String × Authorship)) :
    Option (Option String × Authorship) :=
  ps.find? (qualifies school_id a_id)

/-- The sequence of (work title, authorship) pairs the nested aggregation
loop traverses, in Work Finder result order. -/
def pairsOf (works : List Work) : List (Option String × Authorship) :=
  works.flatMap (fun w => w.authorships.map (fun a => (w.title, a)))

theorem lookupA_bump_self (k : String) (m : List (String × AScore)) :
    lookupA k (bump k m) = (lookupA k m).map (fun v => { v with count := v.count + 1 }) := by
  induction m with
  | nil => rfl
  | cons hd tl ih =>
    obtain ⟨k', v⟩ := hd
    by_cases h : k' = k
    · subst h; simp [bump, lookupA]
    · simp [bump, lookupA, h, ih]

theorem lookupA_bump_ne (k j : String) (m : List (String × AScore)) (h : j ≠ k) :
    lookupA k (bump j m) = lookupA k m := by
  induction m with
  | nil => rfl
  | cons hd tl ih =>
    obtain ⟨k', v⟩ := hd
    by_cases hj : k' = j
    · subst hj
      have hk : k' ≠ k := fun hk => h (hk ▸ rfl)
      simp [bump, lookupA, hk]
    · simp [bump, lookupA, hj, ih]

theorem lookupA_append (k : String) (m m' : List (String × AScore)) :
    lookupA k (m ++ m') =
      match lookupA k m with
      | some v => some v
      | none => lookupA k m' := by
  induction m with
  | nil => rfl
  | cons hd tl ih =>
    obtain ⟨k', v⟩ := hd
    by_cases h : k' = k
    · subst h; simp [lookupA]
    · simp [lookupA, h, ih]

theorem map_fst_bump (k : String) (m : List (String × AScore)) :
    (bump k m).map Prod.fst = m.map Prod.fst := by
  induction m with
  | nil => rfl
  | cons hd tl ih =>
    obtain ⟨k', v⟩ := hd
    by_cases h : k' = k <;> simp [bump, h, ih]

theorem lookupA_eq_none_iff (k : String) (m : List (String × AScore)) :
    lookupA k m = none ↔ k ∉ m.map Prod.fst := by
  induction m with
  | nil => simp [lookupA]
  | cons hd tl ih =>
    obtain ⟨k', v⟩ := hd
    by_cases h : k' = k
    · subst h; simp [lookupA]
    · have hkk : ¬ k = k' := fun he => h he.symm
      simp [lookupA, h, ih, hkk]

theorem lookupA_step (school_id a_id : String) (m : List (String × AScore))
    (p : Option String × Authorship) (hne : a_id ≠ "") :
    lookupA a_id (step school_id m p) =
      if qualifies school_id a_id p then
        match lookupA a_id m with
        | some sc => some { sc with count := sc.count + 1 }
        | none => some { name := nameOf p, top_paper := p.1, count := 1 }
      else lookupA a_id m := by
  obtain ⟨t, a⟩ := p
  by_cases hs : atSchool school_id a
  · cases hau : a.author with
    | none =>
      have hq : qualifies school_id a_id (t, a) = false := by
        simp [qualifies, hau]
      simp [step, hs, hau, hq]
    | some au =>
      cases hid : au.id with
      | none =>
        have hq : qualifies school_id a_id (t, a) = false := by
          simp [qualifies, hau, hid]
        simp [step, hs, hau, hid, hq]
      | some k =>
        have hq : qualifies school_id a_id (t, a) = decide (k = a_id) := by
          simp [qualifies, hau, hid, hs, eq_comm]
        by_cases hk : k = ""
        · subst hk
          have hq' : qualifies school_id a_id (t, a) = false := by
            simp [hq]; exact fun h => hne h.symm
          simp [step, hs, hau, hid, hq']
        · by_cases hka : k = a_id
          · subst hka
            have hq' : qualifies school_id k (t, a) = true := by simp [hq]
            cases hm : lookupA k m with
            | some sc =>
              simp [step, hs, hau, hid, hk, hm, hq', lookupA_bump_self, hm]
            | none =>
              simp [step, hs, hau, hid, hk, hm, hq', lookupA_append, hm, lookupA,
                nameOf]
          · have hq' : qualifies school_id a_id (t, a) = false := by simp [hq, hka]
            cases hm : lookupA k m with
            | some sc =>
              simp [step, hs, hau, hid, hk, hm, hq', lookupA_bump_ne a_id k m hka]
            | none =>
              have happ : lookupA a_id (m ++ [(k,
                  { name := au.display_name, top_paper := t, count := 1 })]) =
                  lookupA a_id m := by
                rw [lookupA_append]
                cases lookupA a_id m <;> simp [lookupA, hka]
              simp [step, hs, hau, hid, hk, hm, hq', happ]
  · have hq : qualifies school_id a_id (t, a) = false := by
      simp [qualifies, hs]
    simp [step, hs, hq]
theorem lookupA_foldl_step (school_id a_id : String) (hne : a_id ≠ "")
    (ps : List (Option String × Authorship)) (m : List (String × AScore)) :
    lookupA a_id (ps.foldl (step school_id) m) =
      match lookupA a_id m with
      | some sc => some { sc with count := sc.count + countQ school_id a_id ps }
      | none =>
        match firstQ school_id a_id ps with
        | none => none
        | some p => some { name := nameOf p, top_paper := p.1, count := countQ school_id a_id ps } := by
  induction ps generalizing m with
  | nil =>
    simp [countQ, firstQ]
    cases lookupA a_id m <;> simp
  | cons p ps ih =>
    rw [List.foldl_cons, ih (step school_id m p), lookupA_step school_id a_id m p hne]
    by_cases hq : qualifies school_id a_id p
    · rw [if_pos hq]
      cases hm : lookupA a_id m with
      | some sc =>
        simp [countQ, firstQ, List.countP_cons, hq]
        omega
      | none =>
        simp [countQ, firstQ, List.countP_cons, List.find?_cons, hq]
        omega
    · rw [if_neg hq]
      cases hm : lookupA a_id m with
      | some sc =>
        simp [countQ, firstQ, List.countP_cons, hq]
      | none =>
        simp [countQ, firstQ, List.find?_cons, List.countP_cons, hq]

theorem map_fst_step (school_id : String) (m : List (String × AScore))
    (p : Option String × Authorship) :
    (step school_id m p).map Prod.fst = m.map Prod.fst ∨
    ∃ k, k ≠ "" ∧ qualifies school_id k p = true ∧ lookupA k m = none ∧
      (step school_id m p).map Prod.fst = m.map Prod.fst ++ [k] := by
  obtain ⟨t, a⟩ := p
  by_cases hs : atSchool school_id a
  · cases hau : a.author with
    | none => left; simp [step, hs, hau]
    | some au =>
      cases hid : au.id with
      | none => left; simp [step, hs, hau, hid]
      | some k =>
        by_cases hk : k = ""
        · left; simp [step, hs, hau, hid, hk]
        · cases hm : lookupA k m with
          | some sc => left; simp [step, hs, hau, hid, hk, hm, map_fst_bump]
          | none =>
            right
            refine ⟨k, hk, ?_, hm, ?_⟩
            · simp [qualifies, hau, hid, hs]
            · simp [step, hs, hau, hid, hk, hm]
  · left; simp [step, hs]

theorem nodup_keys_foldl (school_id : String) (ps : List (Option String × Authorship))
    (m : List (String × AScore)) (h : (m.map Prod.fst).Nodup) :
    (((ps.foldl (step school_id) m)).map Prod.fst).Nodup := by
  induction ps generalizing m with
  | nil => exact h
  | cons p ps ih =>
    rw [List.foldl_cons]
    apply ih
    rcases map_fst_step school_id m p with he | ⟨k, _, _, hnone, he⟩
    · rw [he]; exact h
    · rw [he]
      have hnotmem : k ∉ m.map Prod.fst := (lookupA_eq_none_iff k m).mp hnone
      simp [List.nodup_append, h, hnotmem]

theorem mem_keys_foldl (school_id : String) (ps : List (Option String × Authorship))
    (m : List (String × AScore)) (k : String)
    (hk : k ∈ (ps.foldl (step school_id) m).map Prod.fst) :
    k ∈ m.map Prod.fst ∨ ∃ p ∈ ps, qualifies school_id k p = true := by
  induction ps generalizing m with
  | nil => exact Or.inl hk
  | cons p ps ih =>
    rw [List.foldl_cons] at hk
    rcases ih (step school_id m p) hk with hmem | ⟨q, hq, hqual⟩
    · rcases map_fst_step school_id m p with he | ⟨j, _, hqual, _, he⟩
      · rw [he] at hmem; exact Or.inl hmem
      · rw [he] at hmem
        rcases List.mem_append.mp hmem with hmem' | hj
        · exact Or.inl hmem'
        · have : k = j := by simpa using hj
          subst this
          exact Or.inr ⟨p, List.mem_cons_self p ps, hqual⟩
    · exact Or.inr ⟨q, List.mem_cons_of_mem p hq, hqual⟩

theorem aggregate_eq_pairs (school_id : String) (works : List Work) :
    aggregate school_id works = (pairsOf works).foldl (step school_id) [] := by
  suffices h : ∀ m, works.foldl
      (fun m w => w.authorships.foldl (fun m' a => step school_id m' (w.title, a)) m) m =
      (pairsOf works).foldl (step school_id) m from h []
  intro m
  induction works generalizing m with
  | nil => rfl
  | cons w ws ih =>
    rw [List.foldl_cons]
    rw [ih]
    simp only [pairsOf, List.flatMap_cons, List.foldl_append, List.foldl_map]

theorem perm_insertDesc (x : Faculty) (l : List Faculty) :
    List.Perm (insertDesc x l) (x :: l) := by
  induction l with
  | nil => simp [insertDesc]
  | cons y ys ih =>
    unfold insertDesc
    by_cases h : y.h_index ≤ x.h_index
    · rw [if_pos h]
    · rw [if_neg h]
      exact (ih.cons y).trans (List.Perm.swap x y ys)

theorem perm_sortDesc (l : List Faculty) : List.Perm (sortDesc l) l := by
  induction l with
  | nil => simp [sortDesc]
  | cons x xs ih =>
    exact (perm_insertDesc x (sortDesc xs)).trans (ih.cons x)

theorem pairwise_insertDesc (x : Faculty) (l : List Faculty)
    (h : l.Pairwise (fun a b => b.h_index ≤ a.h_index)) :
    (insertDesc x l).Pairwise (fun a b => b.h_index ≤ a.h_index) := by
  induction l with
  | nil => simp [insertDesc]
  | cons y ys ih =>
    rcases List.pairwise_cons.mp h with ⟨hy, hys⟩
    unfold insertDesc
    by_cases hyx : y.h_index ≤ x.h_index
    · rw [if_pos hyx]
      refine List.pairwise_cons.mpr ⟨?_, h⟩
      intro z hz
      rcases List.mem_cons.mp hz with rfl | hz'
      · exact hyx
      · exact le_trans (hy z hz') hyx
    · rw [if_neg hyx]
      refine List.pairwise_cons.mpr ⟨?_, ih hys⟩
      intro z hz
      rcases List.mem_cons.mp ((perm_insertDesc x ys).mem_iff.mp hz) with rfl | hz''
      · exact le_of_not_le hyx
      · exact hy z hz''

theorem pairwise_sortDesc (l : List Faculty) :
    (sortDesc l).Pairwise (fun a b => b.h_index ≤ a.h_index) := by
  induction l with
  | nil => simp [sortDesc]
  | cons x xs ih => exact pairwise_insertDesc x (sortDesc xs) ih
theorem filter_insertDesc (x : Faculty) (l : List Faculty) (k : Nat) :
    (insertDesc x l).filter (fun f => f.h_index == k) =
      if x.h_index = k then x :: l.filter (fun f => f.h_index == k)
      else l.filter (fun f => f.h_index == k) := by
  induction l with
  | nil => by_cases h : x.h_index = k <;> simp [insertDesc, h]
  | cons y ys ih =>
    unfold insertDesc
    by_cases hyx : y.h_index ≤ x.h_index
    · rw [if_pos hyx]
      by_cases hx : x.h_index = k <;> simp [List.filter_cons, hx]
    · rw [if_neg hyx]
      by_cases hx : x.h_index = k
      · have hy : ¬ y.h_index = k := by omega
        simp [List.filter_cons, hy, ih, hx]
      · by_cases hy : y.h_index = k <;> simp [List.filter_cons, hy, ih, hx]

theorem filter_sortDesc (l : List Faculty) (k : Nat) :
    (sortDesc l).filter (fun f => f.h_index == k) = l.filter (fun f => f.h_index == k) := by
  induction l with
  | nil => rfl
  | cons x xs ih =>
    show (insertDesc x (sortDesc xs)).filter (fun f => f.h_index == k) = _
    rw [filter_insertDesc]
    by_cases hx : x.h_index = k <;> simp [List.filter_cons, hx, ih]

theorem mkFaculty_eq (sd : String) (scores : List (String × AScore))
    (a : AuthorProfile) (f : Faculty) (h : mkFaculty sd scores a = some f) :
    ∃ sc, lookupA a.id scores = some sc ∧
      f = { name := a.display_name
            id := a.id
            h_index := match a.summary_stats with
              | none => 0
              | some st => st.h_index.getD 0
            specialty := match a.topics with
              | [] => some "Researcher"
              | t :: _ => t.display_name
            top_paper := sc.top_paper
            last_known_institution := sd } := by
  unfold mkFaculty at h
  cases hm : lookupA a.id scores with
  | none => rw [hm] at h; exact absurd h (by simp)
  | some sc =>
    rw [hm] at h
    exact ⟨sc, rfl, (Option.some_injective _ h).symm⟩

theorem mem_buildVerified (sd : String) (scores : List (String × AScore))
    (ps : List AuthorProfile) (v : List Faculty)
    (h : buildVerified sd scores ps = some v) :
    ∀ f ∈ v, ∃ a ∈ ps, isTechnical a.topics = true ∧ mkFaculty sd scores a = some f := by
  induction ps generalizing v with
  | nil =>
    have hv : v = [] := by
      have := h
      unfold buildVerified at this
      exact (Option.some_injective _ this).symm
    subst hv; simp
  | cons a rest ih =>
    unfold buildVerified at h
    by_cases ht : isTechnical a.topics
    · rw [if_pos ht] at h
      cases hf : mkFaculty sd scores a with
      | none => rw [hf] at h; exact absurd h (by simp)
      | some f0 =>
        rw [hf] at h
        cases hr : buildVerified sd scores rest with
        | none => rw [hr] at h; exact absurd h (by simp)
        | some v0 =>
          rw [hr] at h
          simp only [Option.map_some] at h
          have hv : v = f0 :: v0 := (Option.some_injective _ h).symm
          subst hv
          intro f hfmem
          rcases List.mem_cons.mp hfmem with rfl | hmem
          · exact ⟨a, List.mem_cons_self a rest, ht, hf⟩
          · rcases ih v0 hr f hmem with ⟨b, hb, hbt, hbf⟩
            exact ⟨b, List.mem_cons_of_mem a hb, hbt, hbf⟩
    · rw [if_neg ht] at h
      intro f hf
      rcases ih v h f hf with ⟨b, hb, hbt, hbf⟩
      exact ⟨b, List.mem_cons_of_mem a hb, hbt, hbf⟩

theorem buildVerified_map_id (sd : String) (scores : List (String × AScore))
    (ps : List AuthorProfile) (v : List Faculty)
    (h : buildVerified sd scores ps = some v) :
    v.map Faculty.id = (ps.filter (fun a => isTechnical a.topics)).map AuthorProfile.id := by
  induction ps generalizing v with
  | nil =>
    have hv : v = [] := by
      unfold buildVerified at h
      exact (Option.some_injective _ h).symm
    subst hv; rfl
  | cons a rest ih =>
    unfold buildVerified at h
    by_cases ht : isTechnical a.topics
    · rw [if_pos ht] at h
      cases hf : mkFaculty sd scores a with
      | none => rw [hf] at h; exact absurd h (by simp)
      | some f0 =>
        rw [hf] at h
        cases hr : buildVerified sd scores rest with
        | none => rw [hr] at h; exact absurd h (by simp)
        | some v0 =>
          rw [hr] at h
          simp only [Option.map_some] at h
          have hv : v = f0 :: v0 := (Option.some_injective _ h).symm
          subst hv
          have hid : f0.id = a.id := by
            rcases mkFaculty_eq sd scores a f0 hf with ⟨sc, _, hfe⟩
            rw [hfe]
          simp [List.filter_cons, ht, ih v0 hr, hid]
    · rw [if_neg ht] at h
      simp [List.filter_cons, ht, ih v h]

theorem get_experts_enriched (api : Api) (limit : Nat) (res : RunResult)
    (h : get_experts api limit = some res) (hreq : res.authors_request ≠ none) :
    ∃ verified, keptOf api = some verified ∧
      res.output = (sortDesc verified).take limit ∧
      res.saved = some res.output ∧
      res.authors_request = some (topIdsOf api) ∧
      api.inst_results ≠ [] ∧ topIdsOf api ≠ [] := by
  unfold get_experts at h
  cases hi : api.inst_results with
  | nil =>
    rw [hi] at h
    have hv : res = { output := [], saved := none, authors_request := none } :=
      (Option.some_injective _ h).symm
    rw [hv] at hreq
    exact absurd rfl hreq
  | cons inst rest =>
    rw [hi] at h
    by_cases htop : topIdsOf api = []
    · rw [if_pos htop] at h
      have hv : res = { output := [], saved := none, authors_request := none } :=
        (Option.some_injective _ h).symm
      rw [hv] at hreq
      exact absurd rfl hreq
    · rw [if_neg htop] at h
      cases hk : keptOf api with
      | none => rw [hk] at h; exact absurd h (by simp)
      | some verified =>
        rw [hk] at h
        simp only at h
        have hv : res = { output := (sortDesc verified).take limit
                          saved := some ((sortDesc verified).take limit)
                          authors_request := some (topIdsOf api) } := (Option.some_injective _ h).symm
        subst hv
        exact ⟨verified, rfl, rfl, rfl, rfl, by simp [hi], htop⟩
theorem get_experts_early (api : Api) (limit : Nat)
    (h : api.inst_results = [] ∨ topIdsOf api = []) :
    get_experts api limit = some { output := [], saved := none, authors_request := none } := by
  unfold get_experts
  cases hi : api.inst_results with
  | nil => rfl
  | cons i r =>
    rcases h with h | h
    · rw [hi] at h; exact absurd h (by simp)
    · rw [if_pos h]

theorem get_experts_cases (api : Api) (limit : Nat) (res : RunResult)
    (h : get_experts api limit = some res) :
    (res = { output := [], saved := none, authors_request := none } ∧
       (api.inst_results = [] ∨ topIdsOf api = [])) ∨
    (∃ verified, keptOf api = some verified ∧
       res = { output := (sortDesc verified).take limit
               saved := some ((sortDesc verified).take limit)
               authors_request := some (topIdsOf api) } ∧
       api.inst_results ≠ [] ∧ topIdsOf api ≠ []) := by
  unfold get_experts at h
  cases hi : api.inst_results with
  | nil =>
    rw [hi] at h
    exact Or.inl ⟨(Option.some_injective _ h).symm, Or.inl rfl⟩
  | cons inst rest =>
    rw [hi] at h
    by_cases htop : topIdsOf api = []
    · rw [if_pos htop] at h
      exact Or.inl ⟨(Option.some_injective _ h).symm, Or.inr htop⟩
    · rw [if_neg htop] at h
      cases hk : keptOf api with
      | none => rw [hk] at h; exact absurd h (by simp)
      | some verified =>
        rw [hk] at h
        simp only at h
        right
        exact ⟨verified, rfl, (Option.some_injective _ h).symm, by simp [hi], htop⟩

theorem mem_output (api : Api) (limit : Nat) (res : RunResult) (f : Faculty)
    (h : get_experts api limit = some res) (hf : f ∈ res.output) :
    ∃ inst rest, api.inst_results = inst :: rest ∧
      ∃ a ∈ api.authors_fetch (topIdsOf api), isTechnical a.topics = true ∧
        mkFaculty inst.display_name (scoresOf api) a = some f := by
  rcases get_experts_cases api limit res h with ⟨hres, _⟩ | ⟨verified, hk, hres, hinst, _⟩
  · rw [hres] at hf; simp at hf
  · rw [hres] at hf
    simp only at hf
    have hf' : f ∈ sortDesc verified := List.take_subset _ _ hf
    have hfv : f ∈ verified := (perm_sortDesc verified).mem_iff.mp hf'
    cases hi2 : api.inst_results with
    | nil => exact absurd hi2 hinst
    | cons inst rest =>
      unfold keptOf at hk
      rw [hi2] at hk
      rcases mem_buildVerified _ _ _ _ hk f hfv with ⟨a, ha, ht, hmf⟩
      exact ⟨inst, rest, rfl, a, ha, ht, hmf⟩
/-- Institution used by the concrete inputs below. -/
def instX : Institution := { id := "I1", display_name := "X University" }

/-- An authorship crediting the given author id at institution I1. -/
def authAt (aid : String) : Authorship :=
  { author := some { id := some aid, display_name := aid }
    institutions := [{ id := some "I1" }] }

/-- An authorship crediting the given author id at a different institution. -/
def authElse (aid : String) : Authorship :=
  { author := some { id := some aid, display_name := aid }
    institutions := [{ id := some "I2" }] }

/-- A work with the given title and authorship list. -/
def mkWork (t : String) (aus : List Authorship) : Work :=
  { title := some t, authorships := aus }

/-- A topic whose parent field is on the technical allow-list. -/
def csTopic : Topic :=
  { display_name := some "Machine Learning"
    field := some { display_name := some "Computer Science" } }

/-- A topic whose parent field is not on the technical allow-list. -/
def socTopic : Topic :=
  { display_name := some "Social Theory"
    field := some { display_name := some "Sociology" } }

/-- A technical author profile with the given h-index. -/
def csProfile (aid : String) (h : Nat) : AuthorProfile :=
  { id := aid, display_name := aid
    summary_stats := some { h_index := some h }
    topics := [csTopic] }

/-- A non-technical author profile. -/
def socProfile (aid : String) : AuthorProfile :=
  { id := aid, display_name := aid
    summary_stats := some { h_index := some 3 }
    topics := [socTopic] }

/-- Three kept candidates with h-indices 10, 50, 25. -/
def apiH : Api :=
  { inst_results := [instX]
    works_results := [mkWork "w" [authAt "a1", authAt "a2", authAt "a3"]]
    authors_fetch := fun _ => [csProfile "a1" 10, csProfile "a2" 50, csProfile "a3" 25] }

/-- Ten kept candidates (h-index i for author ai). -/
def apiTen : Api :=
  { inst_results := [instX]
    works_results := [mkWork "w"
      [authAt "a1", authAt "a2", authAt "a3", authAt "a4", authAt "a5",
       authAt "a6", authAt "a7", authAt "a8", authAt "a9", authAt "b1"]]
    authors_fetch := fun _ =>
      [csProfile "a1" 1, csProfile "a2" 2, csProfile "a3" 3, csProfile "a4" 4,
       csProfile "a5" 5, csProfile "a6" 6, csProfile "a7" 7, csProfile "a8" 8,
       csProfile "a9" 9, csProfile "b1" 10] }

/-- One author on three works titled Paper 1, Paper 2, Paper 3, in order. -/
def apiPapers : Api :=
  { inst_results := [instX]
    works_results := [mkWork "Paper 1" [authAt "a1"], mkWork "Paper 2" [authAt "a1"],
      mkWork "Paper 3" [authAt "a1"]]
    authors_fetch := fun _ => [csProfile "a1" 7] }

/-- One aggregated author whose profile fails the field filter: the final
sequence is empty yet the run reaches enrichment. -/
def apiSoc : Api :=
  { inst_results := [instX]
    works_results := [mkWork "w" [authAt "a1"]]
    authors_fetch := fun _ => [socProfile "a1"] }

/-- One aggregated author with null summary statistics. -/
def apiNullStats : Api :=
  { inst_results := [instX]
    works_results := [mkWork "w" [authAt "a1"]]
    authors_fetch := fun _ =>
      [{ id := "a1", display_name := "a1", summary_stats := none, topics := [csTopic] }] }

/-- A work shared by an I1 author and an author credited only elsewhere. -/
def apiGuest : Api :=
  { inst_results := [instX]
    works_results := [mkWork "w" [authAt "a1", authElse "b9"]]
    authors_fetch := fun _ => [csProfile "a1" 4] }

/-- An institution search that matches nothing. -/
def apiNoInst : Api :=
  { inst_results := []
    works_results := [mkWork "w" [authAt "a1"]]
    authors_fetch := fun _ => [csProfile "a1" 4] }

/-- A work search that matches nothing. -/
def apiNoWorks : Api :=
  { inst_results := [instX]
    works_results := []
    authors_fetch := fun _ => [csProfile "a1" 4] }
/-- Aggregation state holding author a1 with representative paper w. -/
def scoresW : List (String × AScore) :=
  [("a1", { name := "a1", top_paper := some "w", count := 1 })]

/-- The single record produced by running get_experts on apiPapers. -/
def paperFac : Faculty :=
  { name := "a1", id := "a1", h_index := 7, specialty := some "Machine Learning"
    top_paper := some "Paper 1", last_known_institution := "X University" }

/-- The run outcome of get_experts on apiPapers with limit 10. -/
def resPapers : RunResult :=
  { output := [paperFac], saved := some [paperFac], authors_request := some ["a1"] }

/-- The run outcome of get_experts on apiSoc with limit 10: an empty final
sequence that is nevertheless saved. -/
def resSoc : RunResult :=
  { output := [], saved := some [], authors_request := some ["a1"] }

/-- C4: if the institution search returns an empty result list, or the
aggregated-and-truncated author id set is empty (in particular whenever the
work search returns no results), get_experts returns an empty sequence at
once and the storage save is never invoked. -/
theorem C4_empty_match_early_exit :
    (∀ (api : Api) (limit : Nat), api.inst_results = [] →
        get_experts api limit = some { output := [], saved := none, authors_request := none }) ∧
    (∀ (api : Api) (limit : Nat), topIdsOf api = [] →
        get_experts api limit = some { output := [], saved := none, authors_request := none }) ∧
    (∀ (api : Api) (limit : Nat), api.works_results = [] →
        get_experts api limit = some { output := [], saved := none, authors_request := none }) ∧
    get_experts apiNoInst 10 = some { output := [], saved := none, authors_request := none } ∧
    get_experts apiNoWorks 10 = some { output := [], saved := none, authors_request := none } := by
  refine ⟨?_, ?_, ?_, by decide, by decide⟩
  · intro api limit h
    exact get_experts_early api limit (Or.inl h)
  · intro api limit h
    exact get_experts_early api limit (Or.inr h)
  · intro api limit h
    apply get_experts_early
    right
    unfold topIdsOf scoresOf
    cases hi : api.inst_results <;> simp [aggregate, h]

/-- Witness for C4 at concrete inputs. -/
theorem C4_witness :
    get_experts apiNoInst 3 = some { output := [], saved := none, authors_request := none } ∧
    get_experts apiNoWorks 3 = some { output := [], saved := none, authors_request := none } :=
  ⟨C4_empty_match_early_exit.1 apiNoInst 3 rfl,
   C4_empty_match_early_exit.2.2.1 apiNoWorks 3 rfl⟩

/-- C6: whenever a request reaches the enrichment stage (the authors request
was issued), the storage save is invoked with exactly the final truncated,
ranked sequence, even when that sequence is empty; requests that never reach
enrichment never save. -/
theorem C6_save_exactly_final_sequence :
    (∀ (api : Api) (limit : Nat) (res : RunResult), get_experts api limit = some res →
        (res.authors_request ≠ none → res.saved = some res.output) ∧
        (res.authors_request = none → res.saved = none)) ∧
    get_experts apiSoc 10 = some { output := [], saved := some [], authors_request := some ["a1"] } := by
  refine ⟨?_, by decide⟩
  intro api limit res h
  rcases get_experts_cases api limit res h with ⟨hres, _⟩ | ⟨v, hk, hres, _, _⟩
  · subst hres
    exact ⟨fun hne => absurd rfl hne, fun _ => rfl⟩
  · subst hres
    exact ⟨fun _ => rfl, fun hn => by simp at hn⟩

/-- Witness for C6: on apiSoc the empty final sequence is saved. -/
theorem C6_witness : resSoc.saved = some resSoc.output :=
  (C6_save_exactly_final_sequence.1 apiSoc 10 resSoc (by decide)).1 (by decide)

/-- C7: the aggregated identifier set is truncated to the first 20 keys (a
fixed bound of at most 25), in insertion order (a prefix of the key
sequence), and the enrichment batch request is issued for exactly this
bounded set. -/
theorem C7_bounded_ids_insertion_order :
    (∀ api : Api, topIdsOf api = ((scoresOf api).map Prod.fst).take 20) ∧
    (∀ api : Api, (topIdsOf api).length ≤ 20 ∧ (topIdsOf api).length ≤ 25) ∧
    (∀ api : Api, topIdsOf api <+: (scoresOf api).map Prod.fst) ∧
    (∀ (api : Api) (limit : Nat) (res : RunResult),
        get_experts api limit = some res → res.authors_request ≠ none →
        res.authors_request = some (topIdsOf api)) := by
  refine ⟨fun api => rfl, ?_, ?_, ?_⟩
  · intro api
    refine ⟨List.length_take_le 20 _, le_trans (List.length_take_le 20 _) (by norm_num)⟩
  · intro api
    exact List.take_prefix 20 _
  · intro api limit res h hreq
    rcases get_experts_cases api limit res h with ⟨hres, _⟩ | ⟨v, hk, hres, _, _⟩
    · subst hres; exact absurd rfl hreq
    · subst hres; rfl

/-- Witness for C7: on apiSoc the issued authors request is the bounded key
set. -/
theorem C7_witness : resSoc.authors_request = some (topIdsOf apiSoc) :=
  C7_bounded_ids_insertion_order.2.2.2 apiSoc 10 resSoc (by decide) (by decide)

/-- C8: a null summary-statistics field yields h-index 0 and impact score
0.0 in the constructed record; when the score lookup succeeds the record is
still produced (no failure, no omission). -/
theorem C8_null_summary_stats_defaults :
    (∀ (sd : String) (scores : List (String × AScore)) (a : AuthorProfile) (f : Faculty),
        a.summary_stats = none → mkFaculty sd scores a = some f →
        f.h_index = 0 ∧ f.impact_score = 0) ∧
    (∀ (sd : String) (scores : List (String × AScore)) (a : AuthorProfile),
        a.summary_stats = none → (lookupA a.id scores).isSome →
        (mkFaculty sd scores a).isSome) ∧
    (get_experts apiNullStats 10).map
      (fun r => r.output.map (fun f => (f.h_index, f.impact_score))) = some [(0, 0)] := by
  refine ⟨?_, ?_, by decide⟩
  · intro sd scores a f hstats hf
    rcases mkFaculty_eq sd scores a f hf with ⟨sc, _, hfe⟩
    subst hfe
    refine ⟨?_, rfl⟩
    simp [hstats]
  · intro sd scores a _ hsome
    unfold mkFaculty
    cases hm : lookupA a.id scores with
    | none => rw [hm] at hsome; exact absurd hsome (by simp)
    | some sc => simp

/-- Witness for C8 at a concrete null-statistics profile. -/
theorem C8_witness :
    ∃ f, mkFaculty "X University" scoresW
        { id := "a1", display_name := "a1", summary_stats := none, topics := [csTopic] } = some f ∧
      f.h_index = 0 ∧ f.impact_score = 0 := by
  have hs : (mkFaculty "X University" scoresW
      { id := "a1", display_name := "a1", summary_stats := none, topics := [csTopic] }).isSome :=
    C8_null_summary_stats_defaults.2.1 "X University" scoresW
      { id := "a1", display_name := "a1", summary_stats := none, topics := [csTopic] }
      rfl (by decide)
  rcases Option.isSome_iff_exists.mp hs with ⟨f, hf⟩
  exact ⟨f, hf, C8_null_summary_stats_defaults.1 "X University" scoresW
    { id := "a1", display_name := "a1", summary_stats := none, topics := [csTopic] } f rfl hf⟩

/-- C10: orcid, works_count, total_citations and impact_score of every
constructed and every returned record hold the dataclass defaults none, 0,
0, 0.0, whatever the enriched profile contained. -/
theorem C10_unpopulated_default_fields :
    (∀ (sd : String) (scores : List (String × AScore)) (a : AuthorProfile) (f : Faculty),
        mkFaculty sd scores a = some f →
        f.orcid = none ∧ f.works_count = 0 ∧ f.total_citations = 0 ∧ f.impact_score = 0) ∧
    (∀ (api : Api) (limit : Nat) (res : RunResult), get_experts api limit = some res →
        ∀ f ∈ res.output,
        f.orcid = none ∧ f.works_count = 0 ∧ f.total_citations = 0 ∧ f.impact_score = 0) := by
  constructor
  · intro sd scores a f hf
    rcases mkFaculty_eq sd scores a f hf with ⟨sc, _, hfe⟩
    subst hfe
    exact ⟨rfl, rfl, rfl, rfl⟩
  · intro api limit res h f hf
    rcases mem_output api limit res f h hf with ⟨inst, rest, hi, a, ha, ht, hmf⟩
    rcases mkFaculty_eq _ _ _ _ hmf with ⟨sc, _, hfe⟩
    subst hfe
    exact ⟨rfl, rfl, rfl, rfl⟩

/-- Witness for C10 on the record returned for apiPapers. -/
theorem C10_witness :
    paperFac.orcid = none ∧ paperFac.works_count = 0 ∧
    paperFac.total_citations = 0 ∧ paperFac.impact_score = 0 :=
  C10_unpopulated_default_fields.2 apiPapers 10 resPapers (by decide) paperFac (by decide)
/-- C1: a run that reaches the ranking step returns exactly the kept
records, stable-sorted by descending h-index (permutation + descending
pairwise order + equal-key subsequences preserved, which together
characterise the stable descending sort) and truncated to limit; with ten
kept candidates and limit 3 the output has exactly 3 records, and kept
h-indices 10, 50, 25 come out as 50, 25, 10. -/
theorem C1_ranking_stable_descending_truncated :
    (∀ (api : Api) (limit : Nat) (res : RunResult),
        get_experts api limit = some res → res.authors_request ≠ none →
        ∃ verified, keptOf api = some verified ∧
          res.output = (sortDesc verified).take limit) ∧
    (∀ l : List Faculty,
        List.Perm (sortDesc l) l ∧
        (sortDesc l).Pairwise (fun a b => b.h_index ≤ a.h_index) ∧
        ∀ k : Nat, (sortDesc l).filter (fun f => f.h_index == k) =
          l.filter (fun f => f.h_index == k)) ∧
    (get_experts apiTen 3).map (fun r => r.output.length) = some 3 ∧
    (get_experts apiH 10).map (fun r => r.output.map Faculty.h_index) = some [50, 25, 10] := by
  refine ⟨?_, ?_, by decide, by decide⟩
  · intro api limit res h hreq
    rcases get_experts_enriched api limit res h hreq with ⟨v, hk, hout, _⟩
    exact ⟨v, hk, hout⟩
  · intro l
    exact ⟨perm_sortDesc l, pairwise_sortDesc l, fun k => filter_sortDesc l k⟩

/-- Witness for C1 on apiPapers. -/
theorem C1_witness :
    ∃ verified, keptOf apiPapers = some verified ∧
      resPapers.output = (sortDesc verified).take 10 :=
  C1_ranking_stable_descending_truncated.1 apiPapers 10 resPapers (by decide) (by decide)

/-- The keep condition as the spec words it: at least one of the first
three topics has a parent field whose display name is on the fixed
allow-list of technical fields. Stated separately from the code's
isTechnical for the refinement comparison. -/
def specTechnical (a : AuthorProfile) : Prop :=
  ∃ t ∈ a.topics.take 3, ∃ fl, t.field = some fl ∧
    ∃ n, fl.display_name = some n ∧ n ∈ technical_fields

theorem isTechnical_iff (topics : List Topic) :
    isTechnical topics = true ↔
      ∃ t ∈ topics.take 3, ∃ fl, t.field = some fl ∧
        ∃ n, fl.display_name = some n ∧ n ∈ technical_fields := by
  unfold isTechnical
  rw [List.any_eq_true]
  constructor
  · rintro ⟨t, ht, hfn⟩
    refine ⟨t, ht, ?_⟩
    cases hf : t.field with
    | none => exact absurd hfn (by simp [hf])
    | some fl =>
      simp only [hf] at hfn
      cases hd : fl.display_name with
      | none => exact absurd hfn (by simp [hd])
      | some n =>
        simp only [hd] at hfn
        exact ⟨fl, rfl, n, hd, by simpa using hfn⟩
  · rintro ⟨t, ht, fl, hf, n, hd, hn⟩
    refine ⟨t, ht, ?_⟩
    simp only [hf, hd]
    simpa using hn

/-- Faculty record built from csProfile a1 with scoresW. -/
def facW : Faculty :=
  { name := "a1", id := "a1", h_index := 1, specialty := some "Machine Learning"
    top_paper := some "w", last_known_institution := "X University" }

/-- C5: an enriched profile is kept iff one of its first three topics has an
allow-listed parent field; a profile with no topics is always excluded; the
kept records are exactly the filtered profiles, in order. -/
theorem C5_technical_field_filter :
    (∀ a : AuthorProfile, isTechnical a.topics = true ↔ specTechnical a) ∧
    (∀ a : AuthorProfile, a.topics = [] → isTechnical a.topics = false) ∧
    (∀ (sd : String) (scores : List (String × AScore)) (ps : List AuthorProfile)
        (v : List Faculty), buildVerified sd scores ps = some v →
        v.map Faculty.id = (ps.filter (fun a => isTechnical a.topics)).map AuthorProfile.id) ∧
    (get_experts apiSoc 10).map (fun r => r.output) = some [] := by
  refine ⟨?_, ?_, ?_, by decide⟩
  · intro a
    exact isTechnical_iff a.topics
  · intro a h
    rw [h]
    rfl
  · intro sd scores ps v h
    exact buildVerified_map_id sd scores ps v h

/-- Witness for C5: a technical profile is kept, a sociology one dropped. -/
theorem C5_witness :
    List.map Faculty.id [facW] =
      (([csProfile "a1" 1, socProfile "b2"].filter
        (fun a => isTechnical a.topics)).map AuthorProfile.id) :=
  C5_technical_field_filter.2.2.1 "X University" scoresW
    [csProfile "a1" 1, socProfile "b2"] [facW] (by decide)

/-- C9: when every topic of every fetched profile carries a display name (as
the upstream payload shape documents), the specialty of every returned
record is non-null: the first topic's display name, or the fixed fallback
"Researcher" when the profile has no topics. -/
theorem C9_specialty_non_null :
    ∀ (api : Api) (limit : Nat) (res : RunResult),
      get_experts api limit = some res →
      (∀ a ∈ api.authors_fetch (topIdsOf api), ∀ t ∈ a.topics, t.display_name ≠ none) →
      ∀ f ∈ res.output,
        f.specialty ≠ none ∧
        (f.specialty = some "Researcher" ∨
          ∃ a ∈ api.authors_fetch (topIdsOf api), f.id = a.id ∧
            ∃ t, a.topics.head? = some t ∧ f.specialty = t.display_name) := by
  intro api limit res h hwf f hf
  rcases mem_output api limit res f h hf with ⟨inst, rest, hi, a, ha, ht, hmf⟩
  rcases mkFaculty_eq _ _ _ _ hmf with ⟨sc, _, hfe⟩
  subst hfe
  cases htop : a.topics with
  | nil =>
    constructor
    · simp [htop]
    · left
      simp [htop]
  | cons t ts =>
    constructor
    · have hd := hwf a ha t (by rw [htop]; exact List.mem_cons_self t ts)
      simp [htop, hd]
    · right
      exact ⟨a, ha, rfl, t, by simp [htop], by simp [htop]⟩

/-- Witness for C9 on the record returned for apiPapers. -/
theorem C9_witness : paperFac.specialty ≠ none :=
  (C9_specialty_non_null apiPapers 10 resPapers (by decide) (by decide)
    paperFac (by decide)).1
/-- The record returned for apiGuest. -/
def facGuest : Faculty :=
  { name := "a1", id := "a1", h_index := 4, specialty := some "Machine Learning"
    top_paper := some "w", last_known_institution := "X University" }

/-- C2: an author none of whose authorship entries on the returned works
passes the per-authorship institution guard never enters the aggregated
author set nor the sequence returned by get_experts, however many works the
author is credited on; concretely, b9 (credited on a shared work only under
another institution) is absent from the output for apiGuest. -/
theorem C2_authorship_institution_guard :
    (∀ (api : Api) (limit : Nat) (res : RunResult) (inst : Institution)
        (rest : List Institution) (aid : String),
        get_experts api limit = some res →
        api.inst_results = inst :: rest →
        (∀ w ∈ api.works_results, ∀ au ∈ w.authorships,
            au.author.bind AuthorRef.id = some aid → atSchool inst.id au = false) →
        aid ∉ (scoresOf api).map Prod.fst ∧ ∀ f ∈ res.output, f.id ≠ aid) ∧
    (get_experts apiGuest 10).map (fun r => r.output.map Faculty.id) = some ["a1"] := by
  refine ⟨?_, by decide⟩
  intro api limit res inst rest aid h hi hguard
  have hkeys : aid ∉ (scoresOf api).map Prod.fst := by
    intro hmem
    unfold scoresOf at hmem
    rw [hi] at hmem
    dsimp only at hmem
    rw [aggregate_eq_pairs] at hmem
    rcases mem_keys_foldl inst.id (pairsOf api.works_results) [] aid hmem with h0 | ⟨p, hp, hq⟩
    · simp at h0
    · rcases List.mem_flatMap.mp hp with ⟨w, hw, hpw⟩
      rcases List.mem_map.mp hpw with ⟨au, hau, hpe⟩
      rw [← hpe] at hq
      unfold qualifies at hq
      dsimp only at hq
      obtain ⟨h1, h2⟩ := (Bool.and_eq_true _ _).mp hq
      rw [hguard w hw au hau (of_decide_eq_true h2)] at h1
      exact absurd h1 (by simp)
  refine ⟨hkeys, ?_⟩
  intro f hf hfid
  rcases mem_output api limit res f h hf with ⟨inst2, rest2, hi2, a, ha, ht, hmf⟩
  rcases mkFaculty_eq _ _ _ _ hmf with ⟨sc, hlook, hfe⟩
  rw [hfe] at hfid
  simp only at hfid
  rw [hfid] at hlook
  have hnone : lookupA aid (scoresOf api) = none :=
    (lookupA_eq_none_iff aid (scoresOf api)).mpr hkeys
  rw [hlook] at hnone
  exact absurd hnone (by simp)

/-- Witness for C2 on apiGuest with excluded author b9. -/
theorem C2_witness :
    "b9" ∉ (scoresOf apiGuest).map Prod.fst ∧ ∀ f ∈ [facGuest], f.id ≠ "b9" :=
  C2_authorship_institution_guard.1 apiGuest 10
    { output := [facGuest], saved := some [facGuest], authors_request := some ["a1"] }
    instX [] "b9" (by decide) (by decide) (by decide)

/-- C3: aggregated author keys are pairwise distinct; an author with two or
more qualifying authorship entries is aggregated exactly once, with
appearance count equal to the number of qualifying entries and the stored
representative title that of the first qualifying entry (a title of one of
the returned works); the output never repeats an author id when the
enrichment response does not; and on three works Paper 1, Paper 2, Paper 3
by one author the single returned record carries Paper 1. -/
theorem C3_first_seen_representation :
    (∀ (sid : String) (works : List Work), ((aggregate sid works).map Prod.fst).Nodup) ∧
    (∀ (sid aid : String) (works : List Work), aid ≠ "" →
        2 ≤ countQ sid aid (pairsOf works) →
        ∃ sc p, lookupA aid (aggregate sid works) = some sc ∧
          firstQ sid aid (pairsOf works) = some p ∧
          sc.top_paper = p.1 ∧
          sc.count = countQ sid aid (pairsOf works) ∧
          ∃ w ∈ works, p.1 = w.title ∧ p.2 ∈ w.authorships) ∧
    (∀ (api : Api) (limit : Nat) (res : RunResult),
        get_experts api limit = some res →
        ((api.authors_fetch (topIdsOf api)).map AuthorProfile.id).Nodup →
        (res.output.map Faculty.id).Nodup) ∧
    get_experts apiPapers 10 = some resPapers := by
  refine ⟨?_, ?_, ?_, by decide⟩
  · intro sid works
    rw [aggregate_eq_pairs]
    exact nodup_keys_foldl sid (pairsOf works) [] (by simp)
  · intro sid aid works hne hcount
    rw [aggregate_eq_pairs]
    have hlk := lookupA_foldl_step sid aid hne (pairsOf works) []
    have h0 : lookupA aid ([] : List (String × AScore)) = none := rfl
    rw [h0] at hlk
    have hpos : 0 < (pairsOf works).countP (qualifies sid aid) := by
      unfold countQ at hcount
      omega
    rcases List.countP_pos_iff.mp hpos with ⟨p0, hp0, hq0⟩
    cases hfq : firstQ sid aid (pairsOf works) with
    | none =>
      unfold firstQ at hfq
      have hnone := List.find?_eq_none.mp hfq p0 hp0
      exact absurd hq0 hnone
    | some p =>
      rw [hfq] at hlk
      refine ⟨{ name := nameOf p, top_paper := p.1, count := countQ sid aid (pairsOf works) },
        p, hlk, rfl, rfl, rfl, ?_⟩
      have hp : p ∈ pairsOf works := List.mem_of_find?_eq_some hfq
      rcases List.mem_flatMap.mp hp with ⟨w, hw, hpw⟩
      rcases List.mem_map.mp hpw with ⟨au, hau, hpe⟩
      refine ⟨w, hw, ?_, ?_⟩
      · rw [← hpe]
      · rw [← hpe]
        exact hau
  · intro api limit res h hnodup
    rcases get_experts_cases api limit res h with ⟨hres, _⟩ | ⟨v, hk, hres, hinst, _⟩
    · subst hres
      simp
    · subst hres
      cases hi : api.inst_results with
      | nil => exact absurd hi hinst
      | cons inst rest =>
        unfold keptOf at hk
        rw [hi] at hk
        have hvid := buildVerified_map_id _ _ _ _ hk
        have hfilt : (((api.authors_fetch (topIdsOf api)).filter
            (fun a => isTechnical a.topics)).map AuthorProfile.id).Nodup :=
          List.Nodup.sublist (List.Sublist.map _ (List.filter_sublist _)) hnodup
        have hvnodup : (v.map Faculty.id).Nodup := by
          rw [hvid]
          exact hfilt
        have hperm : List.Perm ((sortDesc v).map Faculty.id) (v.map Faculty.id) :=
          (perm_sortDesc v).map Faculty.id
        have hsnodup : ((sortDesc v).map Faculty.id).Nodup := hperm.nodup_iff.mpr hvnodup
        exact List.Nodup.sublist (List.Sublist.map _ (List.take_sublist _ _)) hsnodup

/-- Witness for C3 on apiPapers (one author, three qualifying works). -/
theorem C3_witness :
    (∃ sc p, lookupA "a1" (aggregate "I1" apiPapers.works_results) = some sc ∧
      firstQ "I1" "a1" (pairsOf apiPapers.works_results) = some p ∧
      sc.top_paper = p.1 ∧
      sc.count = countQ "I1" "a1" (pairsOf apiPapers.works_results) ∧
      ∃ w ∈ apiPapers.works_results, p.1 = w.title ∧ p.2 ∈ w.authorships) ∧
    (resPapers.output.map Faculty.id).Nodup :=
  ⟨C3_first_seen_representation.2.1 "I1" "a1" apiPapers.works_results (by decide) (by decide),
   C3_first_seen_representation.2.2.1 apiPapers 10 resPapers (by decide) (by decide)⟩

end Profinesser
